import Mathlib

/-!
Verification of the pin-table generator (`pin_table_gen.py`).

The Python program is shallowly embedded below.  Python dicts become
association lists with Python's update semantics (replace in place at an
existing key, append otherwise; iteration in insertion order), exceptions
become `Except`, and the mutable `svgwrite.Drawing` that accumulates drawing
primitives becomes explicit state threading: on an exception the primitives
added to the drawing so far are reported in the error value (in Python they
are lost together with the local `drawing` object, since the exception
propagates and the function never returns).

Machine integers are `Int`; Python's floor division `//` and `%` on `Int`
are `Int.fdiv` and `Int.fmod`.  Text-label coordinates, computed with
Python's true division `/ 2`, are modelled in `Rat` (every value reached is
a dyadic rational representable exactly by Python floats for realistic
sizes).
-/

set_option linter.unusedVariables false

/-- Colors as the Python program receives them from the JSON loader: either a
raw 24-bit RGB integer or an already-formatted color string. -/
inductive PyColor where
  | int (n : Int)
  | str (s : String)
deriving DecidableEq

/-- A `(fillColor, textColor)` pair, as stored in both color tables. -/
abbrev ColorPair := PyColor × PyColor

/-- One pin-definition record.  Each field models the presence (`some`) or
absence (`none`) of the corresponding key of the Python dict
(`pin`, `type`, `usage`, `usage_type`, `pin_number`). -/
structure PinDefinition where
  pin : Option String
  type : Option String
  usage : Option String
  usage_type : Option String
  pin_number : Option Int
deriving DecidableEq

/-- Association-list model of a Python dict lookup (`d[k]` returning the first
binding, `d.get(k)` likewise). -/
def alookup {α β : Type} [DecidableEq α] : List (α × β) → α → Option β
  | [], _ => none
  | (k1, v) :: rest, k => if k1 = k then some v else alookup rest k

/-- Python dict update `d.update(\x7bk: v\x7d)`: replaces the value at an existing
key in place, otherwise appends; iteration order is insertion order, as in
Python 3.7+. -/
def dictInsert {α β : Type} [DecidableEq α] : List (α × β) → α → β → List (α × β)
  | [], k, v => [(k, v)]
  | (k1, v1) :: rest, k, v =>
      if k1 = k then (k, v) :: rest else (k1, v1) :: dictInsert rest k v

/-- The `pin_map` dict of the source: grid position `(column, row)` to pin. -/
abbrev PinMap := List ((Int × Int) × PinDefinition)

/-- Lookup in the `pin_map` dict. -/
def dictLookup (m : PinMap) (k : Int × Int) : Option PinDefinition := alookup m k

/-- Exceptions the Python code can raise while building the table:
`keyError f` is a `KeyError` from `pin_definition[f]` on a missing required
field, `keyErrorUsage k` is the `KeyError` from `usage_type_colors[k]` (note
the key is `pin_definition.get('usage_type')`, hence possibly `None`),
`zeroDivisionError` is Python's division by zero, and `noRoom` is the
`RuntimeError('No room...')` raised by `find_free_pin`. -/
inductive PyError where
  | keyError (missingField : String)
  | keyErrorUsage (key : Option String)
  | zeroDivisionError
  | noRoom
deriving DecidableEq

/-- The row indices visited inside one column of the scan in `find_free_pin`:
`range(0, y_max)` for an even column index, `reversed(range(0, y_max))` for an
odd one. -/
def columnRows (cx rows : Nat) : List Nat :=
  if cx % 2 = 0 then List.range rows else (List.range rows).reverse

/-- Boustrophedon (snake) cell order over `cols` columns of `rows` rows:
columns in increasing index order, rows top-to-bottom in even columns and
bottom-to-top in odd ones.  With `cols` columns this is the scan order the
spec describes; the loop in `find_free_pin` iterates `range(0, x_max + 1)`,
i.e. it scans `boustrophedonCells (x_max + 1) y_max`. -/
def boustrophedonCells (cols rows : Nat) : List (Nat × Nat) :=
  (List.range cols).flatMap (fun cx => (columnRows cx rows).map (fun cy => (cx, cy)))

/-- The cell sequence actually traversed by the nested loops of
`find_free_pin`: one column more than the grid has. -/
def scanCells (x_max y_max : Nat) : List (Nat × Nat) :=
  boustrophedonCells (x_max + 1) y_max

/-- Grid keys are `Int` pairs (they are computed with Python arithmetic),
while scan cells are naturals. -/
def cellToKey (c : Nat × Nat) : Int × Int := ((c.1 : Int), (c.2 : Int))

/-- `find_free_pin(pin_map, x_max, y_max)`: return the 1-based pin number
`cx * y_max + cy + 1` of the first scanned cell `(cx, cy)` not present as a
key of `pin_map`; raise `RuntimeError` (`noRoom`) when every scanned cell is
occupied.  The nested `for` loops with an early `return` are embedded as
`List.find?` over the flattened scan sequence. -/
def find_free_pin (pin_map : PinMap) (x_max y_max : Nat) : Except PyError Int :=
  match (scanCells x_max y_max).find? (fun c => (dictLookup pin_map (cellToKey c)).isNone) with
  | some c => .ok ((c.1 : Int) * (y_max : Int) + (c.2 : Int) + 1)
  | none => .error .noRoom

/-- Truthiness of `pin.get('pin_number')`: a missing key is `None` (falsy) and
the value `0` is falsy as well; any other integer is truthy. -/
def truthyNum (pin : PinDefinition) : Option Int :=
  match pin.pin_number with
  | some n => if n = 0 then none else some n
  | none => none

/-- `assign_pin(pin_map, pin, x_max, y_max, auto_pin_assign)`:
`pin_num = pin.get('pin_number') or (auto_pin_assign and find_free_pin(...))`;
when `pin_num` is falsy the function returns `False` without touching the
map, otherwise it inserts the pin at
`((pin_num - 1) // y_max, (pin_num - 1) % y_max)` and returns `True`.
Python floor division by zero raises `ZeroDivisionError`; the result of
`find_free_pin` is re-checked for truthiness exactly as `if not pin_num:`
does. -/
def assign_pin (pin_map : PinMap) (pin : PinDefinition) (x_max y_max : Nat)
    (auto_pin_assign : Bool) : Except PyError (PinMap × Bool) :=
  let place (pin_num : Int) : Except PyError (PinMap × Bool) :=
    if (y_max : Int) = 0 then .error .zeroDivisionError
    else
      .ok (dictInsert pin_map
        ((pin_num - 1).fdiv (y_max : Int), (pin_num - 1).fmod (y_max : Int)) pin, true)
  match truthyNum pin with
  | some n => place n
  | none =>
      if auto_pin_assign then
        match find_free_pin pin_map x_max y_max with
        | .error e => .error e
        | .ok n => if n = 0 then .ok (pin_map, false) else place n
      else .ok (pin_map, false)

/-- One pass of `compute_pin_map`: fold `assign_pin` over a list of pins,
threading the map and propagating exceptions. -/
def assignFold (x_max y_max : Nat) (auto : Bool) (m0 : PinMap) :
    List PinDefinition → Except PyError PinMap
  | [] => .ok m0
  | p :: rest =>
    match assign_pin m0 p x_max y_max auto with
    | .error e => .error e
    | .ok (m1, _) => assignFold x_max y_max auto m1 rest

/-- `compute_pin_map(pin_definitions, x_max, y_max)`: first pass over the pins
whose dict has the key `pin_number`, second (auto-assign) pass over those
without it. -/
def compute_pin_map (pin_definitions : List PinDefinition) (x_max y_max : Nat) :
    Except PyError PinMap :=
  match assignFold x_max y_max false []
      (pin_definitions.filter (fun p => p.pin_number.isSome)) with
  | .error e => .error e
  | .ok m1 =>
      assignFold x_max y_max true m1
        (pin_definitions.filter (fun p => !p.pin_number.isSome))

/-- `__conv_to_svg_color`: the source guard `type(color) == 'int'` compares a
type object with the string `'int'` and is therefore always false, so the
color is returned unchanged. -/
def conv_to_svg_color (color : PyColor) : PyColor := color

/-- Drawing primitives added to the `svgwrite.Drawing`.  Rectangles only ever
receive integer coordinates and sizes; text labels are centered with Python's
true division, hence rational coordinates. -/
inductive Primitive where
  | rect (insertX insertY w h : Int) (fill : PyColor)
  | text (content : String) (insertX insertY : Rat) (fill : PyColor)
deriving DecidableEq

/-- The finished drawing: canvas size plus the primitives in the order they
were added. -/
structure Drawing where
  width : Int
  height : Int
  elements : List Primitive
deriving DecidableEq

/-- The centre coordinate `a + w / 2` of a text label, computed with
Python's true division. -/
def centerCoord (a w : Int) : Rat := (a : Rat) + (w : Rat) / 2

/-- The body of the rendering loop of `generate_pin_map_svg` for one occupied
grid cell `(ci, ri)`.  Returns the primitives added for this cell, or, on an
exception, the primitives that had already been added for this cell before
the exception was raised (paired with the error).  The source order is:
read `pin_definition['type']` (KeyError if absent), resolve the type color
with fallback `('black', 'white')`, add the name rectangle, add the name
label (reading `pin_definition['pin']`, KeyError if absent), and only if
`pin_usage is not None` resolve `usage_type_colors[pin_usage_type]`
(KeyError, no fallback) and add the usage rectangle and label. -/
def render_cell (ptc : List (String × ColorPair)) (utc : List (Option String × ColorPair))
    (pin_name_column_width usage_column_width row_height column_spacing : Int)
    (span_pin_name_without_usage : Bool) (ci ri : Int) (pin : PinDefinition) :
    Except (PyError × List Primitive) (List Primitive) :=
  let column_width := pin_name_column_width + usage_column_width
  let x := (column_width + column_spacing) * ci
  let y := row_height * ri
  match pin.type with
  | none => .error (.keyError "type", [])
  | some pin_type =>
    let pin_usage := pin.usage
    let pin_usage_type := pin.usage_type
    let pin_color := (alookup ptc pin_type).getD (.str "black", .str "white")
    let fill := conv_to_svg_color pin_color.1
    let text_color := conv_to_svg_color pin_color.2
    let span_pin_cell := span_pin_name_without_usage && pin_usage.isNone
    let pin_name_cell_width := if span_pin_cell then column_width else pin_name_column_width
    let pin_start_x := if ci = 0 || span_pin_cell then x else x + usage_column_width
    let nameRect := Primitive.rect pin_start_x y pin_name_cell_width row_height fill
    match pin.pin with
    | none => .error (.keyError "pin", [nameRect])
    | some pin_name =>
      let nameText := Primitive.text pin_name
        (centerCoord pin_start_x pin_name_cell_width)
        (centerCoord y row_height) text_color
      match pin_usage with
      | none => .ok [nameRect, nameText]
      | some usage_str =>
        let usage_start_x := if ci = 0 then x + pin_name_column_width else x
        match alookup utc pin_usage_type with
        | none => .error (.keyErrorUsage pin_usage_type, [nameRect, nameText])
        | some usage_color =>
          let usage_fill := conv_to_svg_color usage_color.1
          let usage_text_color := conv_to_svg_color usage_color.2
          .ok [nameRect, nameText,
            Primitive.rect usage_start_x y usage_column_width row_height usage_fill,
            Primitive.text usage_str (centerCoord usage_start_x usage_column_width)
              (centerCoord y row_height) usage_text_color]

/-- The rendering loop over the occupied cells in dict-iteration (insertion)
order, threading the list of primitives added to the drawing so far.  On an
exception the error carries every primitive added before it was raised. -/
def render_cells (ptc : List (String × ColorPair)) (utc : List (Option String × ColorPair))
    (pin_name_column_width usage_column_width row_height column_spacing : Int)
    (span_pin_name_without_usage : Bool) :
    List ((Int × Int) × PinDefinition) → List Primitive →
    Except (PyError × List Primitive) (List Primitive)
  | [], acc => .ok acc
  | (key, pin) :: rest, acc =>
    match render_cell ptc utc pin_name_column_width usage_column_width row_height
        column_spacing span_pin_name_without_usage key.1 key.2 pin with
    | .error (e, ps) => .error (e, acc ++ ps)
    | .ok ps =>
        render_cells ptc utc pin_name_column_width usage_column_width row_height
          column_spacing span_pin_name_without_usage rest (acc ++ ps)

/-- `generate_pin_map_svg`: recompute `number_of_rows` when it is falsy
(`number_of_rows or ceil(len(pins) / cols)`, a `ZeroDivisionError` when both
are zero), size the canvas, compute the pin map, and render every occupied
cell.  Returns the finished drawing, or the exception together with the
primitives that had been added to the discarded drawing before it was
raised. -/
def generate_pin_map_svg (pin_definitions : List PinDefinition)
    (number_of_columns number_of_rows : Nat)
    (pin_type_colors : List (String × ColorPair))
    (usage_type_colors : List (Option String × ColorPair))
    (pin_name_column_width usage_column_width row_height column_spacing : Int)
    (span_pin_name_without_usage : Bool) :
    Except (PyError × List Primitive) Drawing :=
  let column_width := pin_name_column_width + usage_column_width
  if number_of_rows = 0 ∧ number_of_columns = 0 then .error (.zeroDivisionError, [])
  else
    let rows := if number_of_rows = 0 then
        (pin_definitions.length + number_of_columns - 1) / number_of_columns
      else number_of_rows
    let total_width := (column_width + column_spacing) * (number_of_columns : Int) - column_spacing
    let total_height := row_height * (rows : Int)
    match compute_pin_map pin_definitions number_of_columns rows with
    | .error e => .error (e, [])
    | .ok pin_map =>
      match render_cells pin_type_colors usage_type_colors pin_name_column_width
          usage_column_width row_height column_spacing span_pin_name_without_usage
          pin_map [] with
      | .error ep => .error ep
      | .ok elements => .ok ⟨total_width, total_height, elements⟩

/-- Calling `generate_pin_map_svg` without any of the optional keyword
arguments: the signature defaults are `pin_name_column_width = 40`,
`usage_column_width = 80`, `row_height = 20`, `column_spacing = 0` and
`span_pin_name_without_usage = True`. -/
def generate_pin_map_svg_defaults (pin_definitions : List PinDefinition)
    (number_of_columns number_of_rows : Nat)
    (pin_type_colors : List (String × ColorPair))
    (usage_type_colors : List (Option String × ColorPair)) :
    Except (PyError × List Primitive) Drawing :=
  generate_pin_map_svg pin_definitions number_of_columns number_of_rows
    pin_type_colors usage_type_colors 40 80 20 0 true

/-! Helper lemmas about the dict model. -/

/-- First-some choice on options, used to describe lookups in concatenated
association lists. -/
def optOr {β : Type} : Option β → Option β → Option β
  | some v, _ => some v
  | none, b => b

theorem alookup_append {α β : Type} [DecidableEq α] :
    ∀ (m1 m2 : List (α × β)) (k : α), alookup (m1 ++ m2) k = optOr (alookup m1 k) (alookup m2 k)
  | [], m2, k => rfl
  | (k1, v) :: rest, m2, k => by
    by_cases h : k1 = k <;> simp [alookup, h, optOr, alookup_append rest m2 k]

theorem alookup_dictInsert {α β : Type} [DecidableEq α] :
    ∀ (m : List (α × β)) (k : α) (v : β) (k' : α),
      alookup (dictInsert m k v) k' = if k = k' then some v else alookup m k'
  | [], k, v, k' => by by_cases h : k = k' <;> simp [dictInsert, alookup, h]
  | (k1, v1) :: rest, k, v, k' => by
    by_cases h1 : k1 = k
    · subst h1
      by_cases h2 : k1 = k' <;> simp [dictInsert, alookup, h2]
    · by_cases h2 : k1 = k'
      · subst h2
        have : ¬ k = k1 := fun h => h1 h.symm
        simp [dictInsert, alookup, h1, this]
      · simp [dictInsert, alookup, h1, h2, alookup_dictInsert rest k v k']

theorem dictInsert_of_alookup_none {α β : Type} [DecidableEq α] :
    ∀ (m : List (α × β)) (k : α) (v : β), alookup m k = none → dictInsert m k v = m ++ [(k, v)]
  | [], k, v, _ => rfl
  | (k1, v1) :: rest, k, v, h => by
    by_cases h1 : k1 = k
    · simp [alookup, h1] at h
    · simp only [alookup, h1, if_neg] at h
      simp [dictInsert, h1, dictInsert_of_alookup_none rest k v h]

theorem alookup_zip_isSome {α β : Type} [DecidableEq α] :
    ∀ (l1 : List α) (l2 : List β) (k : α), l1.length = l2.length →
      ((alookup (l1.zip l2) k).isSome = true ↔ k ∈ l1)
  | [], [], k, _ => by simp [alookup]
  | [], b :: t2, k, h => by simp at h
  | a :: t1, [], k, h => by simp at h
  | a :: t1, b :: t2, k, h => by
    have ht : t1.length = t2.length := by simpa using h
    by_cases hak : a = k
    · subst hak
      simp [List.zip_cons_cons, alookup]
    · have hne : ¬ k = a := fun hh => hak hh.symm
      have ih := alookup_zip_isSome t1 t2 k ht
      rw [List.zip_cons_cons]
      simp only [alookup, if_neg hak, List.mem_cons]
      rw [ih]
      simp [hne]

theorem alookup_zip_get {α β : Type} [DecidableEq α] :
    ∀ (l1 : List α) (l2 : List β), l1.Nodup → l1.length = l2.length →
      ∀ (i : Nat) (h1 : i < l1.length) (h2 : i < l2.length),
        alookup (l1.zip l2) (l1.get ⟨i, h1⟩) = some (l2.get ⟨i, h2⟩)
  | [], [], _, _, i, h1, h2 => by simp at h1
  | [], b :: t2, _, h, i, h1, h2 => by simp at h1
  | a :: t1, [], _, h, i, h1, h2 => by simp at h2
  | a :: t1, b :: t2, hnd, h, 0, h1, h2 => by simp [List.zip_cons_cons, alookup]
  | a :: t1, b :: t2, hnd, h, i + 1, h1, h2 => by
    have ht : t1.length = t2.length := by simpa using h
    have hmem : t1.get ⟨i, by simpa using h1⟩ ∈ t1 := List.get_mem _ _ _
    have hne : ¬ a = t1.get ⟨i, by simpa using h1⟩ := by
      intro hh
      exact (List.nodup_cons.mp hnd).1 (hh ▸ hmem)
    simp only [List.zip_cons_cons, alookup, List.get_cons_succ]
    rw [if_neg hne]
    exact alookup_zip_get t1 t2 (List.nodup_cons.mp hnd).2 ht i _ _

/-! Helper lemma about `List.find?`: when a predicate holds exactly outside
the first `k` elements of a duplicate-free list, the first hit is element
`k`. -/

theorem find?_nodup_take {α : Type} :
    ∀ (l : List α), l.Nodup → ∀ (p : α → Bool) (k : Nat) (hk : k < l.length),
      (∀ d ∈ l, (p d = true ↔ d ∉ l.take k)) →
      l.find? p = some (l.get ⟨k, hk⟩)
  | [], _, p, k, hk, _ => by simp at hk
  | a :: t, hnd, p, 0, hk, hp => by
    have ha : p a = true := (hp a (by simp)).mpr (by simp)
    rw [List.find?_cons_of_pos _ ha]
    rfl
  | a :: t, hnd, p, k + 1, hk, hp => by
    have hat : a ∉ t := (List.nodup_cons.mp hnd).1
    have ha : p a = false := by
      cases hpa : p a with
      | false => rfl
      | true =>
        have hnot := (hp a (by simp)).mp hpa
        exact absurd (by simp [List.take_succ_cons] : a ∈ (a :: t).take (k + 1)) hnot
    have hrec := find?_nodup_take t (List.nodup_cons.mp hnd).2 p k (by simpa using hk) ?_
    · rw [List.find?_cons_of_neg _ (by simp [ha]), hrec]
      rfl
    · intro d hd
      have hda : ¬ d = a := fun hh => hat (hh ▸ hd)
      rw [hp d (by simp [hd])]
      simp [List.take_succ_cons, hda]

/-! Structure of the boustrophedon scan. -/

theorem columnRows_length (cx rows : Nat) : (columnRows cx rows).length = rows := by
  unfold columnRows
  split <;> simp

theorem columnRows_nodup (cx rows : Nat) : (columnRows cx rows).Nodup := by
  unfold columnRows
  split
  · exact List.nodup_range rows
  · exact List.nodup_reverse.mpr (List.nodup_range rows)

theorem mem_columnRows {cx rows cy : Nat} : cy ∈ columnRows cx rows ↔ cy < rows := by
  unfold columnRows
  split <;> simp [List.mem_range]

theorem boustrophedonCells_succ (cols rows : Nat) :
    boustrophedonCells (cols + 1) rows =
      boustrophedonCells cols rows ++ (columnRows cols rows).map (fun cy => (cols, cy)) := by
  unfold boustrophedonCells
  rw [List.range_succ, List.flatMap_append]
  simp

theorem boustrophedonCells_length (cols rows : Nat) :
    (boustrophedonCells cols rows).length = cols * rows := by
  induction cols with
  | zero => simp [boustrophedonCells]
  | succ c ih =>
      rw [boustrophedonCells_succ, List.length_append, ih, List.length_map,
        columnRows_length, Nat.succ_mul]

theorem mem_boustrophedonCells {cols rows : Nat} {c : Nat × Nat} :
    c ∈ boustrophedonCells cols rows ↔ c.1 < cols ∧ c.2 < rows := by
  unfold boustrophedonCells
  simp only [List.mem_flatMap, List.mem_map, List.mem_range]
  constructor
  · rintro ⟨cx, hcx, cy, hcy, rfl⟩
    exact ⟨hcx, mem_columnRows.mp hcy⟩
  · rintro ⟨h1, h2⟩
    exact ⟨c.1, h1, c.2, mem_columnRows.mpr h2, rfl⟩

theorem boustrophedonCells_nodup (cols rows : Nat) : (boustrophedonCells cols rows).Nodup := by
  unfold boustrophedonCells
  rw [List.nodup_flatMap]
  constructor
  · intro cx _
    exact (columnRows_nodup cx rows).map (fun a b h => by simpa using h)
  · apply List.Pairwise.imp ?_ (List.nodup_range cols)
    intro a b hab
    intro c hca hcb
    simp only [Function.onFun, List.mem_map] at hca hcb
    obtain ⟨cy1, _, rfl⟩ := hca
    obtain ⟨cy2, _, h2⟩ := hcb
    exact hab (by simpa using congrArg Prod.fst h2.symm)

theorem scanCells_take (cols rows : Nat) :
    (scanCells cols rows).take (cols * rows) = boustrophedonCells cols rows := by
  unfold scanCells
  rw [boustrophedonCells_succ]
  rw [List.take_append_of_le_length (by rw [boustrophedonCells_length])]
  rw [← boustrophedonCells_length cols rows, List.take_length]

theorem scanCells_length (cols rows : Nat) :
    (scanCells cols rows).length = (cols + 1) * rows := by
  unfold scanCells
  exact boustrophedonCells_length (cols + 1) rows

theorem scanCells_nodup (cols rows : Nat) : (scanCells cols rows).Nodup :=
  boustrophedonCells_nodup (cols + 1) rows

theorem mem_scanCells {cols rows : Nat} {c : Nat × Nat} :
    c ∈ scanCells cols rows ↔ c.1 < cols + 1 ∧ c.2 < rows := mem_boustrophedonCells

theorem cellToKey_injective : Function.Injective cellToKey := by
  intro a b h
  unfold cellToKey at h
  have h1 : (a.1 : Int) = b.1 := congrArg Prod.fst h
  have h2 : (a.2 : Int) = b.2 := congrArg Prod.snd h
  have := Int.ofNat.inj h1
  have := Int.ofNat.inj h2
  exact Prod.ext (by assumption) (by assumption)

/-! Arithmetic facts: recovering the scanned cell from its pin number, and
injectivity of the pin-number-to-position formula. -/

theorem cell_pin_number_fdiv {a b r : Nat} (hb : b < r) :
    (((a : Int) * (r : Int) + (b : Int) + 1) - 1).fdiv (r : Int) = (a : Int) := by
  have h1 : ((a : Int) * (r : Int) + (b : Int) + 1) - 1 = ((a * r + b : Nat) : Int) := by
    push_cast
    ring
  rw [h1, ← Int.ofNat_fdiv]
  have : (a * r + b) / r = a := by
    rw [Nat.add_comm, Nat.add_mul_div_right _ _ (Nat.pos_of_ne_zero (by omega)),
      Nat.div_eq_of_lt hb]
    omega
  rw [this]

theorem cell_pin_number_fmod {a b r : Nat} (hb : b < r) :
    (((a : Int) * (r : Int) + (b : Int) + 1) - 1).fmod (r : Int) = (b : Int) := by
  have h1 : ((a : Int) * (r : Int) + (b : Int) + 1) - 1 = ((a * r + b : Nat) : Int) := by
    push_cast
    ring
  rw [h1, ← Int.ofNat_fmod]
  have : (a * r + b) % r = b := by
    rw [Nat.add_comm, Nat.add_mul_mod_self_right, Nat.mod_eq_of_lt hb]
  rw [this]

theorem pin_number_pos_inj {rows : Nat} {n n' : Int}
    (h : ((n - 1).fdiv (rows : Int), (n - 1).fmod (rows : Int)) =
      ((n' - 1).fdiv (rows : Int), (n' - 1).fmod (rows : Int))) : n = n' := by
  have h1 : (n - 1).fdiv (rows : Int) = (n' - 1).fdiv (rows : Int) := congrArg Prod.fst h
  have h2 : (n - 1).fmod (rows : Int) = (n' - 1).fmod (rows : Int) := congrArg Prod.snd h
  have e1 := Int.fdiv_add_fmod (n - 1) (rows : Int)
  have e2 := Int.fdiv_add_fmod (n' - 1) (rows : Int)
  rw [h1, h2] at e1
  omega

/-! The auto-assign pass places pins along the scan sequence. -/

/-- The scan cells of `find_free_pin`, as `Int`-pair grid keys. -/
def scanKeys (x_max y_max : Nat) : List (Int × Int) := (scanCells x_max y_max).map cellToKey

theorem scanKeys_nodup (x y : Nat) : (scanKeys x y).Nodup :=
  (scanCells_nodup x y).map cellToKey_injective

theorem scanKeys_length (x y : Nat) : (scanKeys x y).length = (x + 1) * y := by
  unfold scanKeys
  rw [List.length_map, scanCells_length]

/-- One step of the auto-assign pass: with the map holding exactly the first
`k` scan cells (paired with the pins placed so far), `assign_pin` with
`auto_pin_assign = True` places the next pin at scan cell `k`. -/
theorem assign_pin_auto_step (x y : Nat) (qs : List PinDefinition) (p : PinDefinition)
    (hp : p.pin_number = none) (hk : qs.length < (x + 1) * y) :
    assign_pin (((scanKeys x y).take qs.length).zip qs) p x y true =
      .ok ((((scanKeys x y).take (qs.length + 1)).zip (qs ++ [p])), true) := by
  set k := qs.length with hkdef
  have hsl : (scanCells x y).length = (x + 1) * y := scanCells_length x y
  have hkscan : k < (scanCells x y).length := by rw [hsl]; exact hk
  have hlen_take : ((scanKeys x y).take k).length = qs.length := by
    rw [List.length_take, scanKeys_length]
    omega
  set c := (scanCells x y).get ⟨k, hkscan⟩ with hcdef
  have hcmem : c ∈ scanCells x y := List.get_mem _ _ _
  have hcy : c.2 < y := (mem_scanCells.mp hcmem).2
  have hy0 : 0 < y := Nat.pos_of_ne_zero (by omega)
  -- the find? predicate holds exactly outside the first k scan cells
  have hchar : ∀ d ∈ scanCells x y,
      ((dictLookup (((scanKeys x y).take k).zip qs) (cellToKey d)).isNone = true ↔
        d ∉ (scanCells x y).take k) := by
    intro d _
    unfold dictLookup
    rw [Option.isNone_iff_eq_none, ← Option.not_isSome_iff_eq_none]
    rw [alookup_zip_isSome _ _ _ hlen_take]
    constructor
    · intro hnot hmem
      apply hnot
      unfold scanKeys
      rw [← List.map_take]
      exact List.mem_map.mpr ⟨d, hmem, rfl⟩
    · intro hnot hmem
      apply hnot
      unfold scanKeys at hmem
      rw [← List.map_take] at hmem
      obtain ⟨d', hd', he⟩ := List.mem_map.mp hmem
      exact (cellToKey_injective he) ▸ hd'
  have hfind : (scanCells x y).find?
      (fun d => (dictLookup (((scanKeys x y).take k).zip qs) (cellToKey d)).isNone) =
      some c :=
    find?_nodup_take (scanCells x y) (scanCells_nodup x y) _ k hkscan hchar
  have hfree : find_free_pin (((scanKeys x y).take k).zip qs) x y =
      .ok ((c.1 : Int) * (y : Int) + (c.2 : Int) + 1) := by
    unfold find_free_pin
    rw [hfind]
  have hnum_pos : (0 : Int) < (c.1 : Int) * (y : Int) + (c.2 : Int) + 1 := by
    have h1 : (0 : Int) ≤ (c.1 : Int) * (y : Int) := by positivity
    have h2 : (0 : Int) ≤ (c.2 : Int) := Int.ofNat_nonneg _
    omega
  have hdiv : (((c.1 : Int) * (y : Int) + (c.2 : Int) + 1) - 1).fdiv (y : Int) = (c.1 : Int) :=
    cell_pin_number_fdiv hcy
  have hmod : (((c.1 : Int) * (y : Int) + (c.2 : Int) + 1) - 1).fmod (y : Int) = (c.2 : Int) :=
    cell_pin_number_fmod hcy
  -- the chosen key is fresh, so dictInsert appends
  have hfresh : alookup (((scanKeys x y).take k).zip qs) (cellToKey c) = none := by
    have hpc := List.find?_some hfind
    unfold dictLookup at hpc
    exact Option.isNone_iff_eq_none.mp hpc
  unfold assign_pin
  simp only [truthyNum, hp]
  rw [hfree]
  have hne0 : ¬ ((c.1 : Int) * (y : Int) + (c.2 : Int) + 1) = 0 := by omega
  simp only [if_neg hne0]
  have hyne : ¬ ((y : Nat) : Int) = 0 := by
    simp only [ne_eq, Int.natCast_eq_zero]
    omega
  simp only [if_neg hyne]
  rw [hdiv, hmod]
  have hkey : ((c.1 : Int), (c.2 : Int)) = cellToKey c := rfl
  rw [hkey, dictInsert_of_alookup_none _ _ _ hfresh]
  have htake : (scanKeys x y).take (k + 1) = (scanKeys x y).take k ++ [cellToKey c] := by
    rw [List.take_succ]
    congr 1
    have hklen : k < (scanKeys x y).length := by
      rw [scanKeys_length]
      exact hk
    rw [List.getElem?_eq_getElem hklen]
    unfold scanKeys
    simp only [List.getElem_map, Option.toList_some]
    rfl
  have happend : (((scanKeys x y).take k).zip qs) ++ [(cellToKey c, p)] =
      ((scanKeys x y).take (k + 1)).zip (qs ++ [p]) := by
    rw [htake, List.zip_append hlen_take]
    rfl
  rw [happend]
  simp

/-- Unfolding equation for `assign_pin` in the auto-assign pass on a pin
without a `pin_number` key. -/
theorem assign_pin_auto_eq (m0 : PinMap) (p : PinDefinition) (x y : Nat)
    (hp : p.pin_number = none) :
    assign_pin m0 p x y true =
      match find_free_pin m0 x y with
      | .error e => .error e
      | .ok n =>
          if n = 0 then .ok (m0, false)
          else if (y : Int) = 0 then .error .zeroDivisionError
          else .ok (dictInsert m0 ((n - 1).fdiv (y : Int), (n - 1).fmod (y : Int)) p, true) := by
  unfold assign_pin
  simp [truthyNum, hp]

/-- Unfolding equation for `assign_pin` in the explicit pass. -/
theorem assign_pin_explicit_eq (m0 : PinMap) (p : PinDefinition) (x y : Nat) :
    assign_pin m0 p x y false =
      match truthyNum p with
      | none => .ok (m0, false)
      | some n =>
          if (y : Int) = 0 then .error .zeroDivisionError
          else .ok (dictInsert m0 ((n - 1).fdiv (y : Int), (n - 1).fmod (y : Int)) p, true) := by
  unfold assign_pin
  cases truthyNum p <;> simp

/-- A successful `find_free_pin` call returns the pin number of a scanned
cell that is free in the map. -/
theorem find_free_pin_ok (m : PinMap) (x y : Nat) (n : Int)
    (h : find_free_pin m x y = .ok n) :
    ∃ c, c ∈ scanCells x y ∧ dictLookup m (cellToKey c) = none ∧
      n = (c.1 : Int) * (y : Int) + (c.2 : Int) + 1 := by
  unfold find_free_pin at h
  cases hf : (scanCells x y).find? (fun d => (dictLookup m (cellToKey d)).isNone) with
  | none => rw [hf] at h; exact absurd h (by simp)
  | some c =>
      rw [hf] at h
      have hpred : (dictLookup m (cellToKey c)).isNone = true := by
        have hq := List.find?_some hf
        simpa using hq
      refine ⟨c, List.mem_of_find?_eq_some hf, Option.isNone_iff_eq_none.mp hpred, ?_⟩
      cases h
      rfl

/-- The auto-assign pass fills the scan sequence in order: starting from a map
holding exactly the first `qs.length` scan cells (occupied by `qs`), it ends
with the first `(qs ++ ps).length` scan cells (occupied by `qs ++ ps`). -/
theorem assignFold_auto_zip (x y : Nat) :
    ∀ (ps qs : List PinDefinition),
      (∀ p ∈ ps, p.pin_number = none) →
      (qs ++ ps).length ≤ (x + 1) * y →
      assignFold x y true (((scanKeys x y).take qs.length).zip qs) ps =
        .ok (((scanKeys x y).take (qs ++ ps).length).zip (qs ++ ps))
  | [], qs, _, _ => by simp [assignFold]
  | p :: ps, qs, hall, hlen => by
    have hp : p.pin_number = none := hall p (by simp)
    have hk : qs.length < (x + 1) * y := by
      rw [List.length_append, List.length_cons] at hlen
      omega
    unfold assignFold
    rw [assign_pin_auto_step x y qs p hp hk]
    show assignFold x y true (((scanKeys x y).take (qs.length + 1)).zip (qs ++ [p])) ps = _
    have hlen2 : ((qs ++ [p]) ++ ps).length ≤ (x + 1) * y := by
      simp only [List.append_assoc, List.singleton_append]
      exact hlen
    have ih := assignFold_auto_zip x y ps (qs ++ [p])
      (fun q hq => hall q (by simp [hq])) hlen2
    have hql : (qs ++ [p]).length = qs.length + 1 := by simp
    rw [hql] at ih
    rw [List.append_assoc, List.singleton_append] at ih
    exact ih

/-- The auto-assign pass never overwrites an occupied cell: every binding of
the incoming map survives to the final map. -/
theorem assignFold_auto_preserves (x y : Nat) :
    ∀ (ps : List PinDefinition) (m0 m1 : PinMap),
      (∀ p ∈ ps, p.pin_number = none) →
      assignFold x y true m0 ps = .ok m1 →
      ∀ k v, dictLookup m0 k = some v → dictLookup m1 k = some v
  | [], m0, m1, _, hok, k, v, hkv => by
      simp only [assignFold] at hok
      cases hok
      exact hkv
  | p :: ps, m0, m1, hall, hok, k, v, hkv => by
      have hp : p.pin_number = none := hall p (by simp)
      unfold assignFold at hok
      rw [assign_pin_auto_eq m0 p x y hp] at hok
      cases hfree : find_free_pin m0 x y with
      | error e => rw [hfree] at hok; simp at hok
      | ok n =>
        rw [hfree] at hok
        dsimp only at hok
        by_cases hn0 : n = 0
        · rw [if_pos hn0] at hok
          dsimp only at hok
          exact assignFold_auto_preserves x y ps m0 m1
            (fun q hq => hall q (by simp [hq])) hok k v hkv
        · rw [if_neg hn0] at hok
          by_cases hy : ((y : Nat) : Int) = 0
          · rw [if_pos hy] at hok; simp at hok
          · rw [if_neg hy] at hok
            dsimp only at hok
            obtain ⟨c, hcmem, hnone, hn⟩ := find_free_pin_ok m0 x y n hfree
            have hcy : c.2 < y := (mem_scanCells.mp hcmem).2
            have hdiv : (n - 1).fdiv (y : Int) = (c.1 : Int) := by
              rw [hn]; exact cell_pin_number_fdiv hcy
            have hmod : (n - 1).fmod (y : Int) = (c.2 : Int) := by
              rw [hn]; exact cell_pin_number_fmod hcy
            rw [hdiv, hmod] at hok
            have hne : ¬ (cellToKey c = k) := by
              intro he
              rw [he, hkv] at hnone
              exact Option.noConfusion hnone
            have hkv2 : dictLookup (dictInsert m0 (cellToKey c) p) k = some v := by
              unfold dictLookup
              rw [alookup_dictInsert, if_neg hne]
              exact hkv
            exact assignFold_auto_preserves x y ps _ m1
              (fun q hq => hall q (by simp [hq])) hok k v hkv2

/-- Characterisation of a truthy `pin_number`. -/
theorem truthyNum_some {p : PinDefinition} {n : Int} :
    truthyNum p = some n ↔ p.pin_number = some n ∧ ¬ n = 0 := by
  unfold truthyNum
  cases hpn : p.pin_number with
  | none => simp
  | some m =>
    by_cases hm : m = 0
    · subst hm
      simp only [if_pos rfl]
      constructor
      · intro h
        exact absurd h (by simp)
      · rintro ⟨h, hn⟩
        exact absurd (Option.some.inj h).symm hn
    · simp only [if_neg hm]
      constructor
      · intro h
        have := Option.some.inj h
        subst this
        exact ⟨rfl, hm⟩
      · rintro ⟨h, _⟩
        rw [Option.some.inj h]

/-- Does the explicit pass insert pin `p` at grid key `k`?  True exactly when
`p` carries a truthy `pin_number` whose derived position is `k`. -/
def writesTo (rows : Nat) (p : PinDefinition) (k : Int × Int) : Bool :=
  match truthyNum p with
  | some n => decide ((((n - 1).fdiv (rows : Int)), ((n - 1).fmod (rows : Int))) = k)
  | none => false

/-- The last pin of `es` (in input order) whose explicit number writes grid
key `k`. -/
def lastWrite (rows : Nat) (es : List PinDefinition) (k : Int × Int) : Option PinDefinition :=
  es.foldl (fun acc p => if writesTo rows p k then some p else acc) none

theorem lastWrite_foldl (rows : Nat) (k : Int × Int) :
    ∀ (es : List PinDefinition) (a : Option PinDefinition),
      es.foldl (fun acc p => if writesTo rows p k then some p else acc) a =
        optOr (lastWrite rows es k) a
  | [], a => by simp [lastWrite, optOr]
  | p :: es, a => by
      show es.foldl (fun acc q => if writesTo rows q k then some q else acc)
          (if writesTo rows p k then some p else a) = optOr (lastWrite rows (p :: es) k) a
      rw [lastWrite_foldl rows k es (if writesTo rows p k then some p else a)]
      have htail : lastWrite rows (p :: es) k =
          optOr (lastWrite rows es k) (if writesTo rows p k then some p else none) := by
        show es.foldl (fun acc q => if writesTo rows q k then some q else acc)
            (if writesTo rows p k then some p else none) = _
        rw [lastWrite_foldl rows k es (if writesTo rows p k then some p else none)]
      rw [htail]
      cases hw : writesTo rows p k
      · cases lastWrite rows es k <;> simp [optOr]
      · cases lastWrite rows es k <;> simp [optOr]

theorem lastWrite_cons (rows : Nat) (k : Int × Int) (p : PinDefinition)
    (es : List PinDefinition) :
    lastWrite rows (p :: es) k =
      optOr (lastWrite rows es k) (if writesTo rows p k then some p else none) := by
  show es.foldl (fun acc q => if writesTo rows q k then some q else acc)
      (if writesTo rows p k then some p else none) = _
  rw [lastWrite_foldl rows k es (if writesTo rows p k then some p else none)]

theorem lastWrite_append (rows : Nat) (k : Int × Int) (l1 l2 : List PinDefinition) :
    lastWrite rows (l1 ++ l2) k = optOr (lastWrite rows l2 k) (lastWrite rows l1 k) := by
  show (l1 ++ l2).foldl (fun acc q => if writesTo rows q k then some q else acc) none = _
  rw [List.foldl_append]
  rw [lastWrite_foldl rows k l2
    (l1.foldl (fun acc q => if writesTo rows q k then some q else acc) none)]
  rfl

theorem lastWrite_eq_none (rows : Nat) (k : Int × Int) :
    ∀ (es : List PinDefinition), (∀ q ∈ es, writesTo rows q k = false) →
      lastWrite rows es k = none
  | [], _ => rfl
  | p :: es, h => by
      rw [lastWrite_cons]
      rw [lastWrite_eq_none rows k es (fun q hq => h q (by simp [hq]))]
      simp [h p (by simp), optOr]

/-- The explicit pass never fails when a truthy pin number forces a positive
row count, and afterwards each key holds the last pin that wrote it (or what
the incoming map held). -/
theorem assignFold_explicit_lastWrite (x y : Nat) :
    ∀ (es : List PinDefinition) (m0 : PinMap),
      (∀ p ∈ es, ∀ n, truthyNum p = some n → 0 < y) →
      ∃ m1, assignFold x y false m0 es = .ok m1 ∧
        ∀ k, dictLookup m1 k = optOr (lastWrite y es k) (dictLookup m0 k)
  | [], m0, _ => ⟨m0, rfl, fun k => by simp [lastWrite, optOr]⟩
  | p :: es, m0, hy => by
      unfold assignFold
      rw [assign_pin_explicit_eq]
      cases htn : truthyNum p with
      | none =>
          dsimp only
          obtain ⟨m1, hfold, hlook⟩ := assignFold_explicit_lastWrite x y es m0
            (fun q hq => hy q (by simp [hq]))
          refine ⟨m1, hfold, fun k => ?_⟩
          rw [hlook k]
          have hw : writesTo y p k = false := by simp [writesTo, htn]
          rw [lastWrite_cons]
          rw [hw]
          simp only [Bool.false_eq_true, if_false]
          cases lastWrite y es k <;> simp [optOr]
      | some n =>
          have hy' : ¬ ((y : Nat) : Int) = 0 := by
            have := hy p (by simp) n htn
            simp only [Int.natCast_eq_zero]
            omega
          dsimp only
          rw [if_neg hy']
          dsimp only
          obtain ⟨m1, hfold, hlook⟩ := assignFold_explicit_lastWrite x y es
            (dictInsert m0 ((n - 1).fdiv (y : Int), (n - 1).fmod (y : Int)) p)
            (fun q hq => hy q (by simp [hq]))
          refine ⟨m1, hfold, fun k => ?_⟩
          rw [hlook k]
          unfold dictLookup
          rw [alookup_dictInsert]
          rw [lastWrite_cons]
          have hw : writesTo y p k =
              decide ((((n - 1).fdiv (y : Int)), ((n - 1).fmod (y : Int))) = k) := by
            simp [writesTo, htn]
          by_cases hpos : (((n - 1).fdiv (y : Int)), ((n - 1).fmod (y : Int))) = k
          · have hwt : writesTo y p k = true := by
              rw [hw]
              exact decide_eq_true hpos
            rw [if_pos hpos, hwt]
            cases lastWrite y es k <;> simp [optOr]
          · have hwf : writesTo y p k = false := by
              rw [hw]
              exact decide_eq_false hpos
            rw [if_neg hpos, hwf]
            cases lastWrite y es k <;> simp [optOr]

/-! Helper lemmas about the renderer. -/

/-- A successfully rendered cell has both required fields present. -/
theorem render_cell_ok_fields (ptc : List (String × ColorPair))
    (utc : List (Option String × ColorPair)) (pnw ucw rh cs : Int) (span : Bool)
    (ci ri : Int) (pin : PinDefinition) (ps : List Primitive)
    (h : render_cell ptc utc pnw ucw rh cs span ci ri pin = .ok ps) :
    pin.type.isSome = true ∧ pin.pin.isSome = true := by
  cases htype : pin.type with
  | none =>
      unfold render_cell at h
      rw [htype] at h
      exact absurd h (by simp)
  | some t =>
      cases hname : pin.pin with
      | none =>
          unfold render_cell at h
          rw [htype, hname] at h
          exact absurd h (by simp)
      | some nm => exact ⟨rfl, rfl⟩

/-- A successfully rendered cell with a usage resolved its usage color. -/
theorem render_cell_ok_usage (ptc : List (String × ColorPair))
    (utc : List (Option String × ColorPair)) (pnw ucw rh cs : Int) (span : Bool)
    (ci ri : Int) (pin : PinDefinition) (ps : List Primitive)
    (h : render_cell ptc utc pnw ucw rh cs span ci ri pin = .ok ps)
    (hu : pin.usage.isSome = true) :
    (alookup utc pin.usage_type).isSome = true := by
  obtain ⟨htype, hname⟩ := render_cell_ok_fields ptc utc pnw ucw rh cs span ci ri pin ps h
  obtain ⟨t, ht⟩ := Option.isSome_iff_exists.mp htype
  obtain ⟨nm, hnm⟩ := Option.isSome_iff_exists.mp hname
  obtain ⟨u, hu'⟩ := Option.isSome_iff_exists.mp hu
  unfold render_cell at h
  rw [ht, hnm, hu'] at h
  cases hlook : alookup utc pin.usage_type with
  | none => simp [hlook] at h
  | some cp => rfl

/-- Every cell of a successfully rendered cell list rendered successfully. -/
theorem render_cells_ok_forall (ptc : List (String × ColorPair))
    (utc : List (Option String × ColorPair)) (pnw ucw rh cs : Int) (span : Bool) :
    ∀ (cells : List ((Int × Int) × PinDefinition)) (acc out : List Primitive),
      render_cells ptc utc pnw ucw rh cs span cells acc = .ok out →
      ∀ kv ∈ cells, ∃ ps,
        render_cell ptc utc pnw ucw rh cs span kv.1.1 kv.1.2 kv.2 = .ok ps
  | [], acc, out, h, kv, hkv => absurd hkv (by simp)
  | (key, pin) :: rest, acc, out, h, kv, hkv => by
      unfold render_cells at h
      cases hrc : render_cell ptc utc pnw ucw rh cs span key.1 key.2 pin with
      | error ep =>
          rw [hrc] at h
          exact absurd h (by cases ep; simp)
      | ok ps =>
          rw [hrc] at h
          rcases List.mem_cons.mp hkv with hkv1 | hkv2
          · subst hkv1
            exact ⟨ps, hrc⟩
          · exact render_cells_ok_forall ptc utc pnw ucw rh cs span rest (acc ++ ps) out h
              kv hkv2

/-! Concrete pin records used in concrete checks. -/

/-- A pin dict with no keys at all. -/
def blankPin : PinDefinition := ⟨none, none, none, none, none⟩

/-- Complete pins without usage, auto-numbered. -/
def pinIoA : PinDefinition := ⟨some "A", some "io", none, none, none⟩

def pinIoB : PinDefinition := ⟨some "B", some "io", none, none, none⟩

def pinIoC : PinDefinition := ⟨some "C", some "io", none, none, none⟩

/-- A pin whose dict lacks the required `type` key. -/
def pinNoType : PinDefinition := ⟨some "B", none, none, none, none⟩

/-- A pin with a usage whose `usage_type` is absent from the example color
table. -/
def pinClock : PinDefinition := ⟨some "A", some "io", some "U", some "clock", none⟩

/-! Splitting `compute_pin_map` into its two passes. -/

theorem compute_pin_map_split (pins : List PinDefinition) (cols rows : Nat) (mE : PinMap)
    (hE : assignFold cols rows false []
        (pins.filter (fun p => p.pin_number.isSome)) = .ok mE) :
    compute_pin_map pins cols rows =
      assignFold cols rows true mE (pins.filter (fun p => !p.pin_number.isSome)) := by
  unfold compute_pin_map
  rw [hE]

theorem filter_not_isSome_none (pins : List PinDefinition) :
    ∀ q ∈ pins.filter (fun p => !p.pin_number.isSome), q.pin_number = none := by
  intro q hq
  have hpred := List.of_mem_filter hq
  cases hqn : q.pin_number with
  | none => rfl
  | some m => rw [hqn] at hpred; simp at hpred

/-- In a list of the shape `l1 ++ p :: l2` where nothing in `l2` writes the
position of `p`'s truthy number, the last writer of that position is `p`. -/
theorem lastWrite_unique_writer (rows : Nat) (l1 l2 : List PinDefinition)
    (p : PinDefinition) (n : Int) (htn : truthyNum p = some n)
    (hafter : ∀ q ∈ l2, writesTo rows q
      ((n - 1).fdiv (rows : Int), (n - 1).fmod (rows : Int)) = false) :
    lastWrite rows (l1 ++ p :: l2)
      ((n - 1).fdiv (rows : Int), (n - 1).fmod (rows : Int)) = some p := by
  rw [lastWrite_append, lastWrite_cons]
  rw [lastWrite_eq_none rows _ l2 hafter]
  have hw : writesTo rows p ((n - 1).fdiv (rows : Int), (n - 1).fmod (rows : Int)) = true := by
    unfold writesTo
    rw [htn]
    exact decide_eq_true rfl
  rw [hw]
  rfl

/-- C1 (code divergence): with `cols = rows = 1`, the second auto-assigned
pin is placed at `(1, 0)` — the column index equals `cols`, i.e. the cell is
outside the `cols × rows` grid — and `compute_pin_map` succeeds instead of
failing with the AllocationExhausted (`RuntimeError`) condition; the scan of
`find_free_pin` runs over `range(0, x_max + 1)`. -/
theorem c1_allocation_not_exhausted :
    ∃ m, compute_pin_map [blankPin, blankPin] 1 1 = .ok m ∧
      dictLookup m (1, 0) = some blankPin ∧ ¬ ((1 : Int) < (1 : Int)) := by
  refine ⟨[((0, 0), blankPin), ((1, 0), blankPin)], by rfl, by rfl, by omega⟩

/-- The statement of claim C2 as written: for every pin list without explicit
numbers, pin `i` (in input order) lands on the `i`-th cell of the
boustrophedon scan of the `cols × rows` grid. -/
def c2ClaimStatement : Prop :=
  ∀ (pins : List PinDefinition) (cols rows : Nat) (m : PinMap),
    (∀ p ∈ pins, p.pin_number = none) →
    compute_pin_map pins cols rows = .ok m →
    ∀ i, (hi : i < pins.length) →
      ∃ hib : i < (boustrophedonCells cols rows).length,
        dictLookup m (cellToKey ((boustrophedonCells cols rows).get ⟨i, hib⟩)) =
          some (pins.get ⟨i, hi⟩)

/-- C2 (counterexample): two auto pins on a `1 × 1` grid are both placed, the
second outside the grid, so the claim as stated fails. -/
theorem c2_counterexample : ¬ c2ClaimStatement := by
  intro h
  obtain ⟨hib, _⟩ := h [blankPin, blankPin] 1 1 [((0, 0), blankPin), ((1, 0), blankPin)]
    (by decide) (by rfl) 1 (by decide)
  rw [boustrophedonCells_length] at hib
  omega

/-- C2 (amended): for every pin list with no explicit `pin_number` and at
most `cols * rows` pins, auto-placement assigns pin `i`, in input order, to
the `i`-th cell of the boustrophedon scan over columns `0..cols-1` (rows
top-to-bottom in even columns, bottom-to-top in odd ones), each pin taking
the first cell not already present as a grid key.  (For longer lists the
placement spills into the extra scanned column outside the grid, the
divergence recorded for C1.) -/
theorem c2_amended_boustrophedon (pins : List PinDefinition) (cols rows : Nat)
    (hauto : ∀ p ∈ pins, p.pin_number = none)
    (hlen : pins.length ≤ cols * rows) :
    ∃ m, compute_pin_map pins cols rows = .ok m ∧
      ∀ i, (hi : i < pins.length) →
        ∃ hib : i < (boustrophedonCells cols rows).length,
          dictLookup m (cellToKey ((boustrophedonCells cols rows).get ⟨i, hib⟩)) =
            some (pins.get ⟨i, hi⟩) := by
  have hfilter1 : pins.filter (fun p => p.pin_number.isSome) = [] := by
    rw [List.filter_eq_nil_iff]
    intro p hp
    rw [hauto p hp]
    simp
  have hfilter2 : pins.filter (fun p => !p.pin_number.isSome) = pins := by
    rw [List.filter_eq_self]
    intro p hp
    rw [hauto p hp]
    rfl
  have hE : assignFold cols rows false []
      (pins.filter (fun p => p.pin_number.isSome)) = .ok [] := by
    rw [hfilter1]
    rfl
  have hsplit := compute_pin_map_split pins cols rows [] hE
  rw [hfilter2] at hsplit
  have hlen2 : (([] : List PinDefinition) ++ pins).length ≤ (cols + 1) * rows := by
    simp only [List.nil_append]
    calc pins.length ≤ cols * rows := hlen
    _ ≤ (cols + 1) * rows := Nat.mul_le_mul_right rows (Nat.le_succ cols)
  have hzip := assignFold_auto_zip cols rows pins [] hauto hlen2
  simp only [List.nil_append, List.length_nil, List.take_zero, List.zip_nil_right] at hzip
  rw [hsplit]
  refine ⟨_, hzip, ?_⟩
  intro i hi
  have hib : i < (boustrophedonCells cols rows).length := by
    rw [boustrophedonCells_length]
    omega
  refine ⟨hib, ?_⟩
  -- identify the i-th boustrophedon cell with the i-th key of the zip
  have hkle : pins.length ≤ (scanKeys cols rows).length := by
    rw [scanKeys_length]
    calc pins.length ≤ cols * rows := hlen
    _ ≤ (cols + 1) * rows := Nat.mul_le_mul_right rows (Nat.le_succ cols)
  have hlen_take : ((scanKeys cols rows).take pins.length).length = pins.length := by
    rw [List.length_take]
    omega
  have hi_take : i < ((scanKeys cols rows).take pins.length).length := by
    rw [hlen_take]
    exact hi
  have hnd_take : ((scanKeys cols rows).take pins.length).Nodup :=
    (scanKeys_nodup cols rows).sublist (List.take_sublist _ _)
  have hkey : ((scanKeys cols rows).take pins.length).get ⟨i, hi_take⟩ =
      cellToKey ((boustrophedonCells cols rows).get ⟨i, hib⟩) := by
    have h1 : ((scanKeys cols rows).take pins.length).get ⟨i, hi_take⟩ =
        (scanKeys cols rows).get ⟨i, by omega⟩ := by
      simp [List.get_eq_getElem, List.getElem_take]
    have h2 : (scanKeys cols rows).get ⟨i, by omega⟩ =
        cellToKey ((scanCells cols rows).get ⟨i, by
          rw [scanCells_length]
          have := hkle
          rw [scanKeys_length] at this
          omega⟩) := by
      simp [scanKeys, List.get_eq_getElem, List.getElem_map]
    have h3 : (scanCells cols rows).get ⟨i, by
          rw [scanCells_length]
          have := hkle
          rw [scanKeys_length] at this
          omega⟩ =
        (boustrophedonCells cols rows).get ⟨i, hib⟩ := by
      have h4 := scanCells_take cols rows
      have h5 : i < ((scanCells cols rows).take (cols * rows)).length := by
        rw [h4, boustrophedonCells_length]
        omega
      have h6 : ((scanCells cols rows).take (cols * rows)).get ⟨i, h5⟩ =
          (scanCells cols rows).get ⟨i, by
            rw [scanCells_length]
            have := hkle
            rw [scanKeys_length] at this
            omega⟩ := by
        simp [List.get_eq_getElem, List.getElem_take]
      have h7 := List.get_of_eq h4 ⟨i, h5⟩
      rw [← h6, h7]
    rw [h1, h2, h3]
  rw [← hkey]
  unfold dictLookup
  exact alookup_zip_get _ pins hnd_take hlen_take i hi_take hi

theorem c2_amended_boustrophedon_witness :
    (∀ p ∈ [pinIoA, pinIoB, pinIoC], p.pin_number = none) ∧
    ([pinIoA, pinIoB, pinIoC].length ≤ 2 * 2) ∧
    (∃ m, compute_pin_map [pinIoA, pinIoB, pinIoC] 2 2 = .ok m ∧
      ∀ i, (hi : i < [pinIoA, pinIoB, pinIoC].length) →
        ∃ hib : i < (boustrophedonCells 2 2).length,
          dictLookup m (cellToKey ((boustrophedonCells 2 2).get ⟨i, hib⟩)) =
            some ([pinIoA, pinIoB, pinIoC].get ⟨i, hi⟩)) :=
  ⟨by decide, by decide,
    c2_amended_boustrophedon [pinIoA, pinIoB, pinIoC] 2 2 (by decide) (by decide)⟩

/-- C3: when every explicit `pin_number` is unique and lies in
`1..cols*rows`, each explicitly numbered pin `p` with number `n` ends up
exactly at `((n-1) // rows, (n-1) % rows)` in the final grid. -/
theorem c3_explicit_formula (pins : List PinDefinition) (cols rows : Nat)
    (huniq : pins.Pairwise (fun p q => ∀ a b,
      p.pin_number = some a → q.pin_number = some b → a ≠ b))
    (hrange : ∀ p ∈ pins, ∀ n, p.pin_number = some n →
      1 ≤ n ∧ n ≤ (cols : Int) * (rows : Int))
    (m : PinMap) (hok : compute_pin_map pins cols rows = .ok m) :
    ∀ p ∈ pins, ∀ n, p.pin_number = some n →
      dictLookup m ((n - 1).fdiv (rows : Int), (n - 1).fmod (rows : Int)) = some p := by
  have hy : ∀ q ∈ pins.filter (fun p => p.pin_number.isSome),
      ∀ nt, truthyNum q = some nt → 0 < rows := by
    intro q hq nt htq
    obtain ⟨hqn, hnt0⟩ := truthyNum_some.mp htq
    have hr := hrange q (List.mem_of_mem_filter hq) nt hqn
    by_contra h0
    have hrz : rows = 0 := by omega
    subst hrz
    simp only [Nat.cast_zero, mul_zero] at hr
    omega
  obtain ⟨mE, hfoldE, hlookE⟩ := assignFold_explicit_lastWrite cols rows
    (pins.filter (fun p => p.pin_number.isSome)) [] hy
  intro p hp n hpn
  obtain ⟨hn1, hn2⟩ := hrange p hp n hpn
  have hn0 : ¬ n = 0 := by omega
  have htn : truthyNum p = some n := truthyNum_some.mpr ⟨hpn, hn0⟩
  have hpes : p ∈ pins.filter (fun q => q.pin_number.isSome) :=
    List.mem_filter.mpr ⟨hp, by rw [hpn]; rfl⟩
  obtain ⟨l1, l2, hsplit⟩ := List.append_of_mem hpes
  have hpw : (pins.filter (fun q => q.pin_number.isSome)).Pairwise
      (fun p q => ∀ a b, p.pin_number = some a → q.pin_number = some b → a ≠ b) :=
    List.Pairwise.sublist (List.filter_sublist pins) huniq
  rw [hsplit] at hpw
  have hpair := (List.pairwise_append.mp hpw).2.1
  have hrel : ∀ q ∈ l2, ∀ a b, p.pin_number = some a → q.pin_number = some b → a ≠ b :=
    (List.pairwise_cons.mp hpair).1
  have hafter : ∀ q ∈ l2,
      writesTo rows q ((n - 1).fdiv (rows : Int), (n - 1).fmod (rows : Int)) = false := by
    intro q hq
    unfold writesTo
    cases htq : truthyNum q with
    | none => rfl
    | some nq =>
      obtain ⟨hqn, hq0⟩ := truthyNum_some.mp htq
      apply decide_eq_false
      intro heq
      have hne : nq = n := pin_number_pos_inj heq
      exact hrel q hq n nq hpn hqn hne.symm
  have hlw : lastWrite rows (pins.filter (fun q => q.pin_number.isSome))
      ((n - 1).fdiv (rows : Int), (n - 1).fmod (rows : Int)) = some p := by
    rw [hsplit]
    exact lastWrite_unique_writer rows l1 l2 p n htn hafter
  have hmE : dictLookup mE ((n - 1).fdiv (rows : Int), (n - 1).fmod (rows : Int)) = some p := by
    rw [hlookE, hlw]
    rfl
  rw [compute_pin_map_split pins cols rows mE hfoldE] at hok
  exact assignFold_auto_preserves cols rows _ mE m
    (filter_not_isSome_none pins) hok _ p hmE

/-- The first pin of the spec's worked example, explicitly numbered 1. -/
def pinA1 : PinDefinition := ⟨some "A", some "io", none, none, some 1⟩

theorem c3_explicit_formula_witness :
    (([pinA1, pinIoB, pinIoC] : List PinDefinition).Pairwise (fun p q => ∀ a b,
        p.pin_number = some a → q.pin_number = some b → a ≠ b)) ∧
    (∀ p ∈ ([pinA1, pinIoB, pinIoC] : List PinDefinition), ∀ n, p.pin_number = some n →
      1 ≤ n ∧ n ≤ ((2 : Nat) : Int) * ((2 : Nat) : Int)) ∧
    compute_pin_map [pinA1, pinIoB, pinIoC] 2 2 =
      .ok [((0, 0), pinA1), ((0, 1), pinIoB), ((1, 1), pinIoC)] ∧
    (∀ p ∈ ([pinA1, pinIoB, pinIoC] : List PinDefinition), ∀ n, p.pin_number = some n →
      dictLookup [((0, 0), pinA1), ((0, 1), pinIoB), ((1, 1), pinIoC)]
        ((n - 1).fdiv ((2 : Nat) : Int), (n - 1).fmod ((2 : Nat) : Int)) = some p) := by
  have hpw1 : ([pinA1, pinIoB, pinIoC] : List PinDefinition).Pairwise (fun p q => ∀ a b,
      p.pin_number = some a → q.pin_number = some b → a ≠ b) := by
    refine List.Pairwise.cons ?_ (List.Pairwise.cons ?_
      (List.Pairwise.cons ?_ List.Pairwise.nil))
    · intro q hq a b ha hb
      rcases List.mem_cons.mp hq with h1 | h1
      · subst h1
        have hb' : (none : Option Int) = some b := hb
        exact Option.noConfusion hb'
      · rcases List.mem_cons.mp h1 with h2 | h2
        · subst h2
          have hb' : (none : Option Int) = some b := hb
          exact Option.noConfusion hb'
        · exact absurd h2 (by simp)
    · intro q hq a b ha hb
      have ha' : (none : Option Int) = some a := ha
      exact Option.noConfusion ha'
    · intro q hq
      exact absurd hq (by simp)
  have hrg : ∀ p ∈ ([pinA1, pinIoB, pinIoC] : List PinDefinition), ∀ n,
      p.pin_number = some n → 1 ≤ n ∧ n ≤ ((2 : Nat) : Int) * ((2 : Nat) : Int) := by
    intro p hp n hn
    rcases List.mem_cons.mp hp with h1 | h1
    · subst h1
      have hn' : some (1 : Int) = some n := hn
      have h2 := Option.some.inj hn'
      subst h2
      refine ⟨le_refl 1, by norm_num⟩
    · rcases List.mem_cons.mp h1 with h2 | h2
      · subst h2
        have hn' : (none : Option Int) = some n := hn
        exact Option.noConfusion hn'
      · rcases List.mem_cons.mp h2 with h3 | h3
        · subst h3
          have hn' : (none : Option Int) = some n := hn
          exact Option.noConfusion hn'
        · exact absurd h3 (by simp)
  refine ⟨hpw1, hrg, by rfl, ?_⟩
  exact c3_explicit_formula _ 2 2 hpw1 hrg _ (by rfl)

/-- Conclusion of claim C4 for a given input: the explicit pass succeeds with
some map `mE`; a later explicit pin silently overwrites an earlier one
colliding at its position (the last writer of a position owns it, no error is
raised); and the auto-assign pass never overwrites any occupied cell, so in
the final grid every binding of `mE` survives. -/
def c4Conclusion (pins : List PinDefinition) (cols rows : Nat) : Prop :=
  (∃ mE, assignFold cols rows false []
      (pins.filter (fun p => p.pin_number.isSome)) = .ok mE ∧
    (∀ (pre post : List PinDefinition) (p : PinDefinition) (n : Int),
      pins = pre ++ p :: post → p.pin_number = some n → ¬ n = 0 →
      (∀ q ∈ post, ∀ n2, q.pin_number = some n2 → ¬ n2 = 0 →
        ¬ (((n2 - 1).fdiv (rows : Int), (n2 - 1).fmod (rows : Int)) =
          ((n - 1).fdiv (rows : Int), (n - 1).fmod (rows : Int)))) →
      dictLookup mE ((n - 1).fdiv (rows : Int), (n - 1).fmod (rows : Int)) = some p) ∧
    (∀ m, compute_pin_map pins cols rows = .ok m →
      ∀ k v, dictLookup mE k = some v → dictLookup m k = some v)) ∧
  (∀ (ps : List PinDefinition) (m0 m1 : PinMap),
    (∀ p ∈ ps, p.pin_number = none) →
    assignFold cols rows true m0 ps = .ok m1 →
    ∀ k v, dictLookup m0 k = some v → dictLookup m1 k = some v)

/-- C4: grid construction is two passes — explicit pins first, in input
order, with silent last-writer-wins overwrite on collisions, then
auto-placed pins, which never overwrite an occupied cell. -/
theorem c4_two_passes_overwrite (pins : List PinDefinition) (cols rows : Nat)
    (hrows : 0 < rows) : c4Conclusion pins cols rows := by
  unfold c4Conclusion
  have hy : ∀ q ∈ pins.filter (fun p => p.pin_number.isSome),
      ∀ nt, truthyNum q = some nt → 0 < rows := fun _ _ _ _ => hrows
  obtain ⟨mE, hfoldE, hlookE⟩ := assignFold_explicit_lastWrite cols rows
    (pins.filter (fun p => p.pin_number.isSome)) [] hy
  refine ⟨⟨mE, hfoldE, ?_, ?_⟩, fun ps m0 m1 => assignFold_auto_preserves cols rows ps m0 m1⟩
  · intro pre post p n hsplit hpn hn0 hlast
    have htn : truthyNum p = some n := truthyNum_some.mpr ⟨hpn, hn0⟩
    have hfsplit : pins.filter (fun q => q.pin_number.isSome) =
        (pre.filter (fun q => q.pin_number.isSome)) ++ p ::
          (post.filter (fun q => q.pin_number.isSome)) := by
      rw [hsplit, List.filter_append]
      congr 1
      rw [List.filter_cons_of_pos]
      rw [hpn]
      rfl
    have hafter : ∀ q ∈ post.filter (fun q => q.pin_number.isSome),
        writesTo rows q ((n - 1).fdiv (rows : Int), (n - 1).fmod (rows : Int)) = false := by
      intro q hq
      unfold writesTo
      cases htq : truthyNum q with
      | none => rfl
      | some nq =>
        obtain ⟨hqn, hq0⟩ := truthyNum_some.mp htq
        apply decide_eq_false
        exact hlast q (List.mem_of_mem_filter hq) nq hqn hq0
    have hlw := lastWrite_unique_writer rows
      (pre.filter (fun q => q.pin_number.isSome))
      (post.filter (fun q => q.pin_number.isSome)) p n htn hafter
    rw [← hfsplit] at hlw
    rw [hlookE, hlw]
    rfl
  · intro m hok
    rw [compute_pin_map_split pins cols rows mE hfoldE] at hok
    exact assignFold_auto_preserves cols rows _ mE m (filter_not_isSome_none pins) hok

theorem c4_two_passes_overwrite_witness : 0 < 1 ∧ c4Conclusion [pinA1] 2 1 :=
  ⟨Nat.one_pos, c4_two_passes_overwrite [pinA1] 2 1 Nat.one_pos⟩

/-- An example usage color table with the single key `"ut"`. -/
def utcExample : List (Option String × ColorPair) :=
  [(some "ut", (PyColor.str "red", PyColor.str "white"))]

/-- A pin whose usage resolves in `utcExample`. -/
def pinUt : PinDefinition := ⟨some "A", some "io", some "U", some "ut", none⟩

/-- The statement of claim C5 as written: when the usage-color lookup fails,
no drawing primitive of the failing pin has been emitted. -/
def c5ClaimStatement : Prop :=
  ∀ (ptc : List (String × ColorPair)) (utc : List (Option String × ColorPair))
    (pnw ucw rh cs : Int) (span : Bool) (ci ri : Int) (pin : PinDefinition)
    (k : Option String) (ps : List Primitive),
    render_cell ptc utc pnw ucw rh cs span ci ri pin =
      .error (PyError.keyErrorUsage k, ps) → ps = []

/-- C5 (counterexample): a pin with `usage_type: "clock"` and an empty usage
color table fails with the UnknownUsageType KeyError only after its name-cell
rectangle and name label were added to the drawing. -/
theorem c5_counterexample : ¬ c5ClaimStatement := by
  intro h
  have hinst := h [] [] 40 80 20 0 false 0 0 pinClock (some "clock")
    [Primitive.rect 0 0 40 20 (PyColor.str "black"),
     Primitive.text "A" (centerCoord 0 40) (centerCoord 0 20) (PyColor.str "white")] (by rfl)
  exact absurd hinst (by simp)

/-- C5 (amended): whenever a rendered pin has a usage whose `usage_type` key
is absent from the usage color table, rendering fails with the
UnknownUsageType KeyError (so no drawing containing such a pin is ever
produced); however the failing pin's name-cell rectangle and name label are
emitted into the in-progress, discarded drawing before the lookup fails. -/
theorem c5_amended_abort_after_name_cell :
    (∀ (ptc : List (String × ColorPair)) (utc : List (Option String × ColorPair))
      (pnw ucw rh cs : Int) (span : Bool) (cells : List ((Int × Int) × PinDefinition))
      (acc out : List Primitive),
      render_cells ptc utc pnw ucw rh cs span cells acc = .ok out →
      ∀ kv ∈ cells, kv.2.usage.isSome = true →
        (alookup utc kv.2.usage_type).isSome = true) ∧
    (∀ (ptc : List (String × ColorPair)) (utc : List (Option String × ColorPair))
      (pnw ucw rh cs : Int) (span : Bool) (ci ri : Int) (pin : PinDefinition)
      (t nm u : String),
      pin.type = some t → pin.pin = some nm → pin.usage = some u →
      alookup utc pin.usage_type = none →
      ∃ sx fill tc,
        render_cell ptc utc pnw ucw rh cs span ci ri pin =
          .error (PyError.keyErrorUsage pin.usage_type,
            [Primitive.rect sx (rh * ri) pnw rh fill,
             Primitive.text nm (centerCoord sx pnw)
               (centerCoord (rh * ri) rh) tc])) := by
  constructor
  · intro ptc utc pnw ucw rh cs span cells acc out hok kv hkv hu
    obtain ⟨ps, hps⟩ := render_cells_ok_forall ptc utc pnw ucw rh cs span cells acc out
      hok kv hkv
    exact render_cell_ok_usage ptc utc pnw ucw rh cs span kv.1.1 kv.1.2 kv.2 ps hps hu
  · intro ptc utc pnw ucw rh cs span ci ri pin t nm u ht hnm hu hlook
    simp only [render_cell, ht, hnm, hu, hlook, Option.isNone_some, Bool.and_false,
      Bool.or_false]
    exact ⟨_, _, _, rfl⟩

theorem c5_amended_abort_after_name_cell_witness :
    (render_cells [] utcExample 40 80 20 0 false [((0, 0), pinUt)] [] =
      .ok [Primitive.rect 0 0 40 20 (PyColor.str "black"),
        Primitive.text "A" (centerCoord 0 40) (centerCoord 0 20) (PyColor.str "white"),
        Primitive.rect 40 0 80 20 (PyColor.str "red"),
        Primitive.text "U" (centerCoord 40 80) (centerCoord 0 20) (PyColor.str "white")]) ∧
    (((0, 0), pinUt) ∈ [(((0, 0) : Int × Int), pinUt)]) ∧
    (pinUt.usage.isSome = true) ∧
    ((alookup utcExample pinUt.usage_type).isSome = true) ∧
    (pinClock.type = some "io") ∧ (pinClock.pin = some "A") ∧
    (pinClock.usage = some "U") ∧
    (alookup ([] : List (Option String × ColorPair)) pinClock.usage_type = none) ∧
    (∃ sx fill tc,
      render_cell [] [] 40 80 20 0 false 0 0 pinClock =
        .error (PyError.keyErrorUsage pinClock.usage_type,
          [Primitive.rect sx (((20 : Int)) * 0) 40 20 fill,
           Primitive.text "A" (centerCoord sx 40)
             (centerCoord (20 * 0) 20) tc])) := by
  refine ⟨by rfl, by simp, by rfl, by rfl, by rfl, by rfl, by rfl, by rfl, ?_⟩
  exact c5_amended_abort_after_name_cell.2 [] [] 40 80 20 0 false 0 0 pinClock
    "io" "A" "U" (by rfl) (by rfl) (by rfl) (by rfl)

/-- C6 (amended): provided `usageColumnWidth > 0`, for every rendered pin the
name cell spans — its width equals the full combined column width
`pinNameColumnWidth + usageColumnWidth` and its horizontal offset equals the
base column offset — if and only if `spanPinNameWithoutUsage` is enabled and
the pin has no usage; a pin with a usage never spans, and a non-spanning name
cell has width `pinNameColumnWidth`.  (With `usageColumnWidth = 0` the
geometric characterisation degenerates; see the counterexample.) -/
theorem c6_amended_span_iff (ptc : List (String × ColorPair))
    (utc : List (Option String × ColorPair)) (pnw ucw rh cs : Int) (span : Bool)
    (ci ri : Int) (pin : PinDefinition) (t nm : String)
    (ht : pin.type = some t) (hnm : pin.pin = some nm) (hucw : 0 < ucw)
    (ps : List Primitive)
    (hok : render_cell ptc utc pnw ucw rh cs span ci ri pin = .ok ps) :
    ∃ sx w fill rest, ps = Primitive.rect sx (rh * ri) w rh fill :: rest ∧
      ((w = pnw + ucw ∧ sx = (pnw + ucw + cs) * ci) ↔ (span = true ∧ pin.usage = none)) ∧
      (¬ (span = true ∧ pin.usage = none) → w = pnw) := by
  cases hu : pin.usage with
  | none =>
    simp only [render_cell, ht, hnm, hu, Option.isNone_none, Bool.and_true] at hok
    cases span with
    | true =>
      simp at hok
      refine ⟨_, _, _, _, hok.symm, ?_, ?_⟩
      · simp
      · intro hcon
        exact absurd ⟨rfl, rfl⟩ hcon
    | false =>
      simp at hok
      refine ⟨_, _, _, _, hok.symm, ?_, ?_⟩
      · constructor
        · rintro ⟨h1, _⟩
          exfalso
          omega
        · rintro ⟨hsp, _⟩
          exact Bool.noConfusion hsp
      · intro _
        rfl
  | some u =>
    simp only [render_cell, ht, hnm, hu, Option.isNone_some, Bool.and_false,
      Bool.or_false, Bool.false_eq_true, if_false] at hok
    cases hlook : alookup utc pin.usage_type with
    | none =>
        rw [hlook] at hok
        simp at hok
    | some cp =>
        rw [hlook] at hok
        simp at hok
        refine ⟨_, _, _, _, hok.symm, ?_, ?_⟩
        · constructor
          · rintro ⟨h1, _⟩
            exfalso
            omega
          · rintro ⟨_, hnone⟩
            exact Option.noConfusion hnone
        · intro _
          rfl

/-- The statement of claim C6 as written, without any restriction on
`usageColumnWidth`. -/
def c6ClaimStatement : Prop :=
  ∀ (ptc : List (String × ColorPair)) (utc : List (Option String × ColorPair))
    (pnw ucw rh cs : Int) (span : Bool) (ci ri : Int) (pin : PinDefinition)
    (t nm : String), pin.type = some t → pin.pin = some nm →
    ∀ ps, render_cell ptc utc pnw ucw rh cs span ci ri pin = .ok ps →
    ∃ sx w fill rest, ps = Primitive.rect sx (rh * ri) w rh fill :: rest ∧
      ((w = pnw + ucw ∧ sx = (pnw + ucw + cs) * ci) ↔ (span = true ∧ pin.usage = none)) ∧
      (¬ (span = true ∧ pin.usage = none) → w = pnw)

/-- C6 (counterexample): with `usageColumnWidth = 0` a pin with a usage in
the first grid column has a name cell of the full combined width `40 + 0` at
the base column offset, although spanning is disabled and the pin has a
usage, so the geometric if-and-only-if of the claim fails. -/
theorem c6_counterexample : ¬ c6ClaimStatement := by
  intro h
  obtain ⟨sx, w, fill, rest, hps, hiff, _⟩ := h [] utcExample 40 0 20 0 false 0 0 pinUt
    "io" "A" (by rfl) (by rfl)
    [Primitive.rect 0 0 40 20 (PyColor.str "black"),
     Primitive.text "A" (centerCoord 0 40) (centerCoord 0 20) (PyColor.str "white"),
     Primitive.rect 40 0 0 20 (PyColor.str "red"),
     Primitive.text "U" (centerCoord 40 0) (centerCoord 0 20) (PyColor.str "white")]
    (by rfl)
  injection hps with h1 hrest
  injection h1 with hx hy hw hh hf
  obtain ⟨hsp, _⟩ := hiff.mp ⟨by omega, by omega⟩
  exact Bool.noConfusion hsp

theorem c6_amended_span_iff_witness :
    (pinIoA.type = some "io") ∧ (pinIoA.pin = some "A") ∧ ((0 : Int) < 80) ∧
    (render_cell [] [] 40 80 20 0 true 0 0 pinIoA =
      .ok [Primitive.rect 0 0 120 20 (PyColor.str "black"),
        Primitive.text "A" (centerCoord 0 120) (centerCoord 0 20) (PyColor.str "white")]) ∧
    (∃ sx w fill rest,
      [Primitive.rect 0 0 120 20 (PyColor.str "black"),
       Primitive.text "A" (centerCoord 0 120) (centerCoord 0 20) (PyColor.str "white")] =
        Primitive.rect sx ((20 : Int) * 0) w 20 fill :: rest ∧
      ((w = 40 + 80 ∧ sx = (40 + 80 + 0) * 0) ↔ (true = true ∧ pinIoA.usage = none)) ∧
      (¬ (true = true ∧ pinIoA.usage = none) → w = 40)) := by
  refine ⟨rfl, rfl, by omega, by rfl, ?_⟩
  exact c6_amended_span_iff [] [] 40 80 20 0 true 0 0 pinIoA "io" "A" rfl rfl (by omega)
    _ (by rfl)

/-- The statement of claim C7 as written: rendering without the
`spanPinNameWithoutUsage` option behaves as if it were explicitly false. -/
def c7ClaimStatement : Prop :=
  ∀ (pins : List PinDefinition) (cols rows : Nat)
    (ptc : List (String × ColorPair)) (utc : List (Option String × ColorPair)),
    generate_pin_map_svg_defaults pins cols rows ptc utc =
      generate_pin_map_svg pins cols rows ptc utc 40 80 20 0 false

/-- C7 (counterexample): a single pin without usage spans under the
function's real default (name cell 120 wide) but not with the flag false
(name cell 40 wide), so the two calls produce different drawings. -/
theorem c7_counterexample : ¬ c7ClaimStatement := by
  intro h
  have hinst := h [pinIoA] 1 1 [] []
  have h1 : generate_pin_map_svg_defaults [pinIoA] 1 1 [] [] =
      .ok ⟨120, 20, [Primitive.rect 0 0 120 20 (PyColor.str "black"),
        Primitive.text "A" (centerCoord 0 120) (centerCoord 0 20) (PyColor.str "white")]⟩ := by
    rfl
  have h2 : generate_pin_map_svg [pinIoA] 1 1 [] [] 40 80 20 0 false =
      .ok ⟨120, 20, [Primitive.rect 0 0 40 20 (PyColor.str "black"),
        Primitive.text "A" (centerCoord 0 40) (centerCoord 0 20) (PyColor.str "white")]⟩ := by
    rfl
  rw [h1, h2] at hinst
  have h3 := Except.ok.inj hinst
  have h4 := congrArg Drawing.elements h3
  simp at h4

/-- C7 (amended): the signature default of `generate_pin_map_svg` for
`span_pin_name_without_usage` is `True`, so calling the renderer without the
option behaves as if the option were explicitly true; only the command-line
wrapper defaults its flag to false and always passes it explicitly. -/
theorem c7_amended_default_true :
    ∀ (pins : List PinDefinition) (cols rows : Nat)
      (ptc : List (String × ColorPair)) (utc : List (Option String × ColorPair)),
      generate_pin_map_svg_defaults pins cols rows ptc utc =
        generate_pin_map_svg pins cols rows ptc utc 40 80 20 0 true :=
  fun _ _ _ _ _ => rfl

/-- The statement of claim C8 as written: an input containing a pin without
the required `pin` or `type` key fails before grid assignment with no
primitive emitted for any pin (the error value carries an empty primitive
trace). -/
def c8ClaimStatement : Prop :=
  ∀ (pins : List PinDefinition) (cols rows : Nat)
    (ptc : List (String × ColorPair)) (utc : List (Option String × ColorPair))
    (pnw ucw rh cs : Int) (span : Bool),
    (∃ p ∈ pins, p.pin = none ∨ p.type = none) →
    ∃ e, generate_pin_map_svg pins cols rows ptc utc pnw ucw rh cs span =
      .error (e, ([] : List Primitive))

/-- C8 (counterexample): with a well-formed first pin and a second pin
missing `type`, the grid is computed, the first pin's rectangle and label are
emitted, and only then does the KeyError abort the operation — the error
carries a non-empty primitive trace. -/
theorem c8_counterexample : ¬ c8ClaimStatement := by
  intro h
  obtain ⟨e, he⟩ := h [pinIoA, pinNoType] 2 1 [] [] 40 80 20 0 false
    ⟨pinNoType, by simp, Or.inr rfl⟩
  have hval : generate_pin_map_svg [pinIoA, pinNoType] 2 1 [] [] 40 80 20 0 false =
      .error (PyError.keyError "type",
        [Primitive.rect 0 0 40 20 (PyColor.str "black"),
         Primitive.text "A" (centerCoord 0 40) (centerCoord 0 20) (PyColor.str "white")]) := by
    rfl
  rw [hval] at he
  have h2 := congrArg Prod.snd (Except.error.inj he)
  simp at h2

/-- C8 (amended): a pin missing `pin` or `type` raises a KeyError lazily,
while its cell is rendered — after grid assignment has completed and after
primitives of previously rendered cells were emitted; consequently a
successful run implies every pin in the computed grid carries both required
fields (and the exception means no drawing is returned at all). -/
theorem c8_amended_lazy_validation (pins : List PinDefinition) (cols rows : Nat)
    (ptc : List (String × ColorPair)) (utc : List (Option String × ColorPair))
    (pnw ucw rh cs : Int) (span : Bool) (d : Drawing)
    (hok : generate_pin_map_svg pins cols rows ptc utc pnw ucw rh cs span = .ok d) :
    ∃ rows2 m, compute_pin_map pins cols rows2 = .ok m ∧
      ∀ kv ∈ m, kv.2.pin.isSome = true ∧ kv.2.type.isSome = true := by
  unfold generate_pin_map_svg at hok
  by_cases hz : rows = 0 ∧ cols = 0
  · rw [if_pos hz] at hok
    exact absurd hok (by simp)
  · rw [if_neg hz] at hok
    dsimp only at hok
    cases hcomp : compute_pin_map pins cols
        (if rows = 0 then (pins.length + cols - 1) / cols else rows) with
    | error e =>
        rw [hcomp] at hok
        simp at hok
    | ok m =>
        rw [hcomp] at hok
        dsimp only at hok
        cases hrc : render_cells ptc utc pnw ucw rh cs span m [] with
        | error ep =>
            rw [hrc] at hok
            simp at hok
        | ok elems =>
            refine ⟨_, m, hcomp, ?_⟩
            intro kv hkv
            obtain ⟨ps, hps⟩ := render_cells_ok_forall ptc utc pnw ucw rh cs span m []
              elems hrc kv hkv
            exact (render_cell_ok_fields ptc utc pnw ucw rh cs span
              kv.1.1 kv.1.2 kv.2 ps hps).symm

theorem c8_amended_lazy_validation_witness :
    (generate_pin_map_svg [pinIoA] 1 1 [] [] 40 80 20 0 false =
      .ok ⟨120, 20, [Primitive.rect 0 0 40 20 (PyColor.str "black"),
        Primitive.text "A" (centerCoord 0 40) (centerCoord 0 20) (PyColor.str "white")]⟩) ∧
    (∃ rows2 m, compute_pin_map [pinIoA] 1 rows2 = .ok m ∧
      ∀ kv ∈ m, kv.2.pin.isSome = true ∧ kv.2.type.isSome = true) := by
  refine ⟨by rfl, ?_⟩
  exact c8_amended_lazy_validation [pinIoA] 1 1 [] [] 40 80 20 0 false _ (by rfl)

/-- C9: the produced drawing's canvas is exactly
`(pinNameColumnWidth + usageColumnWidth + columnSpacing) * cols − columnSpacing`
wide and `rowHeight * rows` tall (for a caller-supplied positive row count —
`rows = 0` is the sentinel asking the function to compute the row count
itself). -/
theorem c9_canvas_size (pins : List PinDefinition) (cols rows : Nat)
    (ptc : List (String × ColorPair)) (utc : List (Option String × ColorPair))
    (pnw ucw rh cs : Int) (span : Bool) (d : Drawing) (hrows : 0 < rows)
    (hok : generate_pin_map_svg pins cols rows ptc utc pnw ucw rh cs span = .ok d) :
    d.width = (pnw + ucw + cs) * (cols : Int) - cs ∧ d.height = rh * (rows : Int) := by
  unfold generate_pin_map_svg at hok
  have hz : ¬ (rows = 0 ∧ cols = 0) := by omega
  rw [if_neg hz] at hok
  dsimp only at hok
  have hrow_if : (if rows = 0 then (pins.length + cols - 1) / cols else rows) = rows :=
    if_neg (by omega)
  rw [hrow_if] at hok
  cases hcomp : compute_pin_map pins cols rows with
  | error e =>
      rw [hcomp] at hok
      simp at hok
  | ok m =>
      rw [hcomp] at hok
      dsimp only at hok
      cases hrc : render_cells ptc utc pnw ucw rh cs span m [] with
      | error ep =>
          rw [hrc] at hok
          simp at hok
      | ok elems =>
          rw [hrc] at hok
          have h1 := Except.ok.inj hok
          rw [← h1]
          exact ⟨rfl, rfl⟩

theorem c9_canvas_size_witness :
    0 < 3 ∧
    (generate_pin_map_svg [] 2 3 [] [] 40 80 20 0 false = .ok ⟨240, 60, []⟩) ∧
    ((240 : Int) = (40 + 80 + 0) * ((2 : Nat) : Int) - 0 ∧
      (60 : Int) = 20 * ((3 : Nat) : Int)) := by
  refine ⟨by omega, by rfl, ?_⟩
  exact c9_canvas_size [] 2 3 [] [] 40 80 20 0 false ⟨240, 60, []⟩ (by omega) (by rfl)

/-- A pin with a usage but no `usage_type` key. -/
def pinUsageNoUt : PinDefinition := ⟨some "A", some "io", some "U", none, none⟩

/-- A usage color table containing the key `None`. -/
def utcNone : List (Option String × ColorPair) :=
  [(none, (PyColor.str "red", PyColor.str "white"))]

/-- C10: the usage-color lookup happens exactly when `usage` is present.
With `usage` present and `usage_type` absent the lookup key is `None`,
failing with a KeyError unless `None` is a key of the table and succeeding
when it is; a pin without `usage` never triggers the lookup — its rendering
is identical for any two usage color tables and always succeeds. -/
theorem c10_usage_lookup_guard (ptc : List (String × ColorPair))
    (utc utc2 : List (Option String × ColorPair)) (pnw ucw rh cs : Int) (span : Bool)
    (ci ri : Int) (pin : PinDefinition) (t nm : String)
    (ht : pin.type = some t) (hnm : pin.pin = some nm) :
    (∀ u, pin.usage = some u → pin.usage_type = none →
      alookup utc (none : Option String) = none →
      ∃ ps, render_cell ptc utc pnw ucw rh cs span ci ri pin =
        .error (PyError.keyErrorUsage none, ps)) ∧
    (∀ u cp, pin.usage = some u → pin.usage_type = none →
      alookup utc (none : Option String) = some cp →
      ∃ ps, render_cell ptc utc pnw ucw rh cs span ci ri pin = .ok ps) ∧
    (pin.usage = none →
      render_cell ptc utc pnw ucw rh cs span ci ri pin =
        render_cell ptc utc2 pnw ucw rh cs span ci ri pin ∧
      ∃ ps, render_cell ptc utc pnw ucw rh cs span ci ri pin = .ok ps) := by
  refine ⟨?_, ?_, ?_⟩
  · intro u hu hut hlook
    simp only [render_cell, ht, hnm, hu, hut, hlook, Option.isNone_some, Bool.and_false,
      Bool.or_false]
    exact ⟨_, rfl⟩
  · intro u cp hu hut hlook
    simp only [render_cell, ht, hnm, hu, hut, hlook, Option.isNone_some, Bool.and_false,
      Bool.or_false]
    exact ⟨_, rfl⟩
  · intro hu
    constructor
    · simp only [render_cell, ht, hnm, hu]
    · simp only [render_cell, ht, hnm, hu, Option.isNone_none, Bool.and_true]
      exact ⟨_, rfl⟩

theorem c10_usage_lookup_guard_witness :
    (pinUsageNoUt.type = some "io") ∧ (pinUsageNoUt.pin = some "A") ∧
    (pinUsageNoUt.usage = some "U") ∧ (pinUsageNoUt.usage_type = none) ∧
    (alookup ([] : List (Option String × ColorPair)) (none : Option String) = none) ∧
    (∃ ps, render_cell [] [] 40 80 20 0 false 0 0 pinUsageNoUt =
      .error (PyError.keyErrorUsage none, ps)) ∧
    (alookup utcNone (none : Option String) =
      some (PyColor.str "red", PyColor.str "white")) ∧
    (∃ ps, render_cell [] utcNone 40 80 20 0 false 0 0 pinUsageNoUt = .ok ps) ∧
    (pinIoA.usage = none) ∧
    (render_cell [] [] 40 80 20 0 false 0 0 pinIoA =
        render_cell [] utcNone 40 80 20 0 false 0 0 pinIoA ∧
      ∃ ps, render_cell [] [] 40 80 20 0 false 0 0 pinIoA = .ok ps) := by
  refine ⟨rfl, rfl, rfl, rfl, rfl, ?_, rfl, ?_, rfl, ?_⟩
  · exact (c10_usage_lookup_guard [] [] [] 40 80 20 0 false 0 0 pinUsageNoUt "io" "A"
      rfl rfl).1 "U" rfl rfl rfl
  · exact (c10_usage_lookup_guard [] utcNone [] 40 80 20 0 false 0 0 pinUsageNoUt "io" "A"
      rfl rfl).2.1 "U" (PyColor.str "red", PyColor.str "white") rfl rfl rfl
  · exact (c10_usage_lookup_guard [] [] utcNone 40 80 20 0 false 0 0 pinIoA "io" "A"
      rfl rfl).2.2 rfl
